import Mathlib

/-!
Verification development for the orangewidget repository fragment
(files orangewidget/io.py and orangewidget/utils/signals.py).

The Python source is shallowly embedded: pure data manipulation becomes
Lean functions, object state becomes explicit records, exceptions become
Except, and file writes become explicit updates of a name-to-content map.
Python dictionaries that preserve insertion order (dict, OrderedDict) are
modelled as association lists, and the stable builtin sorted is modelled
by List.insertionSort on a non-strict key comparison, which is the same
stable sort semantics.
-/

namespace OrangeWidget

/-! ## io.py: runtime-type dispatch in ImgFormat.write_image (claim C2)

An argument passed to write_image is classified by its runtime type.
The relevant isinstance facts in the real class hierarchy: a pyqtgraph
GraphicsItem is neither a QGraphicsScene nor a QWidget; a QGraphicsScene
is not a QWidget; a QGraphicsView is a QWidget. Objects outside all of
these classes form the final tag. -/

inductive ObjKind where
  | graphicsItem
  | graphicsScene
  | graphicsView
  | plainWidget
  | other
deriving DecidableEq, Repr

/-- isinstance(object, GraphicsItem) on the runtime-type tag. -/
def isGraphicsItem : ObjKind → Bool
  | ObjKind.graphicsItem => true
  | _ => false

/-- isinstance(object, QGraphicsScene) on the runtime-type tag. -/
def isQGraphicsScene : ObjKind → Bool
  | ObjKind.graphicsScene => true
  | _ => false

/-- isinstance(object, QWidget) on the runtime-type tag; a QGraphicsView
is a QWidget, a QGraphicsScene and a pyqtgraph GraphicsItem are not. -/
def isQWidget : ObjKind → Bool
  | ObjKind.graphicsView => true
  | ObjKind.plainWidget => true
  | _ => false

/-- Export strategies reachable from ImgFormat.write_image. -/
inductive Strategy where
  | pyqtgraph
  | scene
  | widget
deriving DecidableEq, Repr

/-- Embedding of the dispatch chain at the end of ImgFormat.write_image
(io.py lines 225-233): isinstance checks in order GraphicsItem,
QGraphicsScene, QWidget, and a TypeError otherwise. -/
def write_image_dispatch (k : ObjKind) : Except String Strategy :=
  if isGraphicsItem k then Except.ok Strategy.pyqtgraph
  else if isQGraphicsScene k then Except.ok Strategy.scene
  else if isQWidget k then Except.ok Strategy.widget
  else Except.error "TypeError"

/-! ## signals.py: Input.__call__ decorator (claim C10)

The handler attribute is a string; Python truthiness makes both None and
the empty string count as no handler bound, so the unbound state is
modelled as the empty string. The decorator raises ValueError when a
handler is bound and the new method name differs, and otherwise stores
the method name. -/

/-- Embedding of the re-binding check and handler assignment in
Input.__call__ (signals.py lines 214-217). The result is the new handler
attribute on success and a ValueError message otherwise. -/
def input_call (handler : String) (methodName : String) : Except String String :=
  if handler ≠ "" ∧ handler ≠ methodName then
    Except.error "ValueError"
  else
    Except.ok methodName

/-! ## io.py: the _Registry metaclass (claim C5)

Class creation is replayed as a fold. The first class created under the
metaclass (the base, ImgFormat) has no registry attribute yet, so an
empty ordered dictionary is installed and the base itself is not added;
every later class is stored into the shared dictionary under its class
name. An OrderedDict assignment updates an existing key in place and
appends a fresh key at the end. -/

/-- Assignment on an insertion-ordered dictionary: update in place when
the key exists, append otherwise. -/
def odAssign (od : List (String × Nat)) (k : String) (v : Nat) : List (String × Nat) :=
  match od with
  | [] => [(k, v)]
  | (k0, v0) :: rest =>
      if k0 = k then (k0, v) :: rest else (k0, v0) :: odAssign rest k v

/-- One class-creation step of the _Registry metaclass (io.py lines
44-50): when no registry exists yet the new class is the base and gets a
fresh empty registry; otherwise the class is recorded under its name. -/
def registerClass (reg : Option (List (String × Nat))) (name : String) (cid : Nat) :
    Option (List (String × Nat)) :=
  match reg with
  | none => some []
  | some od => some (odAssign od name cid)

/-- Replay of a whole sequence of class definitions under _Registry,
starting from a state with no registry attribute. -/
def buildRegistry (defs : List (String × Nat)) : Option (List (String × Nat)) :=
  defs.foldl (fun r d => registerClass r d.1 d.2) none

/-- Embedding of the metaclass __iter__ (io.py lines 52-53): iterating a
class iterates the keys of the shared registry. -/
def registryIter (reg : List (String × Nat)) : List String :=
  reg.map Prod.fst

/-- The class definitions executed at import time of io.py, in textual
order: the base ImgFormat followed by its proper subclasses. The classes
MatplotlibFormat and MatplotlibPDFFormat do not use the metaclass and
never reach the registry. -/
def ioClassDefs : List (String × Nat) :=
  [("ImgFormat", 0), ("PngFormat", 1), ("ClipboardFormat", 2),
   ("SvgFormat", 3), ("PdfFormat", 4)]

/-! ### Registry lemmas -/

theorem odAssign_of_not_mem (od : List (String × Nat)) (k : String) (v : Nat)
    (h : k ∉ od.map Prod.fst) : odAssign od k v = od ++ [(k, v)] := by
  induction od with
  | nil => rfl
  | cons p rest ih =>
      obtain ⟨k0, v0⟩ := p
      simp only [List.map_cons, List.mem_cons, not_or] at h
      simp only [odAssign]
      rw [if_neg (fun hc => h.1 hc.symm)]
      simp [ih h.2]

theorem foldl_registerClass_some (od : List (String × Nat))
    (defs : List (String × Nat)) :
    defs.foldl (fun r d => registerClass r d.1 d.2) (some od)
      = some (defs.foldl (fun o d => odAssign o d.1 d.2) od) := by
  induction defs generalizing od with
  | nil => rfl
  | cons d rest ih => simpa [registerClass] using ih (odAssign od d.1 d.2)

theorem foldl_odAssign_fresh (acc : List (String × Nat))
    (defs : List (String × Nat))
    (h : ((acc ++ defs).map Prod.fst).Nodup) :
    defs.foldl (fun o d => odAssign o d.1 d.2) acc = acc ++ defs := by
  induction defs generalizing acc with
  | nil => simp
  | cons d rest ih =>
      have h' : (acc.map Prod.fst ++ (d.1 :: rest.map Prod.fst)).Nodup := by
        simpa using h
      have hmem : d.1 ∉ acc.map Prod.fst :=
        fun hd => (List.disjoint_of_nodup_append h') hd (by simp)
      have hstep : odAssign acc d.1 d.2 = acc ++ [d] := by
        simpa using odAssign_of_not_mem acc d.1 d.2 hmem
      have h2 : (((acc ++ [d]) ++ rest).map Prod.fst).Nodup := by
        simpa using h
      simpa [hstep, List.append_assoc] using ih (acc ++ [d]) (by simpa using h2)

/-! ### Claim theorems for C2, C5, C10 -/

/-- C2: ImgFormat.write_image selects the export strategy solely from the
runtime type of the object: a pyqtgraph GraphicsItem goes to the
pyqtgraph exporter path, a QGraphicsScene to scene rendering, any other
QWidget (a QGraphicsView included) to widget rendering, and a TypeError
is raised exactly when the object is none of these. -/
theorem write_image_dispatch_by_runtime_type (k : ObjKind) :
    (write_image_dispatch k = Except.ok Strategy.pyqtgraph ↔ isGraphicsItem k = true)
    ∧ (write_image_dispatch k = Except.ok Strategy.scene ↔ isQGraphicsScene k = true)
    ∧ (write_image_dispatch k = Except.ok Strategy.widget ↔ isQWidget k = true)
    ∧ (write_image_dispatch k = Except.error "TypeError" ↔
        (isGraphicsItem k = false ∧ isQGraphicsScene k = false ∧ isQWidget k = false)) := by
  cases k <;> simp [write_image_dispatch, isGraphicsItem, isQGraphicsScene, isQWidget]

/-- C10: decorating with an Input descriptor raises ValueError exactly
when a handler is already bound (non-empty) and the new method name
differs from it; decorating with the same name as the bound handler
succeeds and leaves the handler unchanged. -/
theorem input_call_rebinding (handler methodName : String) :
    (input_call handler methodName = Except.error "ValueError" ↔
      (handler ≠ "" ∧ handler ≠ methodName))
    ∧ input_call handler handler = Except.ok handler := by
  constructor
  · unfold input_call
    by_cases hcond : handler ≠ "" ∧ handler ≠ methodName <;> simp [hcond]
  · simp [input_call]

/-- C5: after any sequence of class definitions under the _Registry
metaclass starting with the base class, the shared registry holds
exactly the proper subclasses of the base in definition order, each
keyed by its class name; the base class itself is never in the registry,
and iterating a class iterates the keys of this shared registry. -/
theorem registry_contains_proper_subclasses (base : String × Nat)
    (rest : List (String × Nat))
    (h : ((base :: rest).map Prod.fst).Nodup) :
    buildRegistry (base :: rest) = some rest
    ∧ base.1 ∉ rest.map Prod.fst
    ∧ (buildRegistry (base :: rest)).map registryIter = some (rest.map Prod.fst) := by
  rw [List.map_cons] at h
  have hn := List.nodup_cons.mp h
  have hreg : buildRegistry (base :: rest) = some rest := by
    have h0 : buildRegistry (base :: rest)
        = rest.foldl (fun r d => registerClass r d.1 d.2) (some []) := rfl
    rw [h0, foldl_registerClass_some]
    have : rest.foldl (fun o d => odAssign o d.1 d.2) ([] : List (String × Nat)) = [] ++ rest :=
      foldl_odAssign_fresh [] rest (by simpa using hn.2)
    simpa using this
  exact ⟨hreg, hn.1, by rw [hreg]; rfl⟩

/-- Witness for C5 at the concrete class definitions executed by io.py:
the registry ends containing exactly PngFormat, ClipboardFormat,
SvgFormat and PdfFormat, keyed by name, without ImgFormat. -/
theorem registry_contains_proper_subclasses_witness :
    buildRegistry ioClassDefs
      = some [("PngFormat", 1), ("ClipboardFormat", 2), ("SvgFormat", 3), ("PdfFormat", 4)]
    ∧ "ImgFormat" ∉
        ([("PngFormat", 1), ("ClipboardFormat", 2), ("SvgFormat", 3),
          ("PdfFormat", 4)].map (Prod.fst (α := String) (β := Nat)))
    ∧ (buildRegistry ioClassDefs).map registryIter
      = some ["PngFormat", "ClipboardFormat", "SvgFormat", "PdfFormat"] := by
  have := registry_contains_proper_subclasses ("ImgFormat", 0)
    [("PngFormat", 1), ("ClipboardFormat", 2), ("SvgFormat", 3), ("PdfFormat", 4)]
    (by decide)
  exact ⟨this.1, this.2.1, by simpa [registryIter] using this.2.2⟩

/-! ## io.py: the img_writers classproperty (claim C3)

Every registered format class carries a PRIORITY and a tuple EXTENSIONS.
The classproperty iterates registry values sorted by PRIORITY with the
stable builtin sorted, and records each extension with setdefault, so an
extension already present is never overwritten. -/

/-- Registered format class data: class name, PRIORITY, EXTENSIONS. -/
structure Fmt where
  name : String
  PRIORITY : Nat
  EXTENSIONS : List String
deriving DecidableEq, Repr

/-- Comparison used as the key in sorted(..., key=lambda x: x.PRIORITY). -/
def prioLE (a b : Fmt) : Prop := a.PRIORITY ≤ b.PRIORITY

instance : DecidableRel prioLE :=
  fun a b => inferInstanceAs (Decidable (a.PRIORITY ≤ b.PRIORITY))

instance : IsTotal Fmt prioLE := ⟨fun a b => Nat.le_total a.PRIORITY b.PRIORITY⟩

instance : IsTrans Fmt prioLE := ⟨fun _ _ _ hab hbc => Nat.le_trans hab hbc⟩

/-- Embedding of OrderedDict.setdefault: keep the dictionary unchanged
when the key is present, append the pair otherwise. -/
def setdefault (m : List (String × Fmt)) (k : String) (v : Fmt) : List (String × Fmt) :=
  if (m.lookup k).isSome then m else m ++ [(k, v)]

/-- Inner loop of img_writers: record every extension of one format. -/
def addFormat (acc : List (String × Fmt)) (f : Fmt) : List (String × Fmt) :=
  f.EXTENSIONS.foldl (fun a ext => setdefault a ext f) acc

/-- Embedding of the img_writers classproperty (io.py lines 241-248):
fold the formats in stable priority-sorted order, adding each extension
with setdefault. -/
def img_writers (registry : List Fmt) : List (String × Fmt) :=
  (List.insertionSort prioLE registry).foldl addFormat []

/-- Registry contents of io.py at import time, in registration order
(MatplotlibFormat and MatplotlibPDFFormat never register). -/
def PngFormat : Fmt := ⟨"PngFormat", 50, [".png"]⟩

/-- ClipboardFormat registers with no extensions. -/
def ClipboardFormat : Fmt := ⟨"ClipboardFormat", 50, []⟩

/-- SvgFormat registry data. -/
def SvgFormat : Fmt := ⟨"SvgFormat", 100, [".svg"]⟩

/-- PdfFormat registry data (both Qt branches declare the same ones). -/
def PdfFormat : Fmt := ⟨"PdfFormat", 110, [".pdf"]⟩

/-- Value order of the shared registry of io.py. -/
def ioRegistry : List Fmt := [PngFormat, ClipboardFormat, SvgFormat, PdfFormat]

/-! ### img_writers lemmas -/

theorem lookup_setdefault (m : List (String × Fmt)) (k : String) (v : Fmt)
    (ext : String) :
    (setdefault m k v).lookup ext
      = (m.lookup ext).or (if ext = k then some v else none) := by
  unfold setdefault
  by_cases h : (m.lookup k).isSome
  · rw [if_pos h]
    by_cases hek : ext = k
    · subst hek
      obtain ⟨w, hw⟩ := Option.isSome_iff_exists.mp h
      simp [hw]
    · simp [hek]
  · rw [if_neg h]
    rw [List.lookup_append]
    by_cases hek : ext = k
    · subst hek
      simp
    · have hne : (ext == k) = false := by simpa using hek
      simp [List.lookup_cons, hne, Option.or_none, hek]

theorem lookup_addFormat (f : Fmt) (acc : List (String × Fmt)) (ext : String) :
    (addFormat acc f).lookup ext
      = (acc.lookup ext).or (if f.EXTENSIONS.contains ext then some f else none) := by
  unfold addFormat
  generalize f.EXTENSIONS = exts
  induction exts generalizing acc with
  | nil => simp
  | cons e rest ih =>
      simp only [List.foldl_cons, List.contains_cons]
      rw [ih, lookup_setdefault]
      by_cases hek : ext = e
      · subst hek
        cases hacc : acc.lookup ext <;>
          simp [Option.or_some, Option.none_or, Option.or_none, Option.or_assoc]
      · cases hacc : acc.lookup ext <;>
          simp [Option.or_some, Option.none_or, Option.or_none, Option.or_assoc, hek]

theorem lookup_foldl_addFormat (fmts : List Fmt) (acc : List (String × Fmt))
    (ext : String) :
    (fmts.foldl addFormat acc).lookup ext
      = (acc.lookup ext).or (fmts.find? (fun f => f.EXTENSIONS.contains ext)) := by
  induction fmts generalizing acc with
  | nil => simp [Option.or_none]
  | cons f rest ih =>
      simp only [List.foldl_cons]
      rw [ih, lookup_addFormat]
      by_cases hf : f.EXTENSIONS.contains ext
      · have hmem : ext ∈ f.EXTENSIONS := by simpa using hf
        cases hacc : acc.lookup ext
        · rw [List.find?_cons_of_pos _ (by simpa using hf)]
          simp [hmem]
        · simp
      · have hmem : ext ∉ f.EXTENSIONS := by simpa using hf
        cases hacc : acc.lookup ext
        · rw [List.find?_cons_of_neg _ (by simpa using hf)]
          simp [hmem]
        · simp

theorem lookup_img_writers (registry : List Fmt) (ext : String) :
    (img_writers registry).lookup ext
      = (List.insertionSort prioLE registry).find?
          (fun f => f.EXTENSIONS.contains ext) := by
  unfold img_writers
  rw [lookup_foldl_addFormat]
  simp [Option.or]

theorem find?_min_of_pairwise (l : List Fmt) (p : Fmt → Bool) (fmt : Fmt)
    (hsort : l.Pairwise prioLE) (hfind : l.find? p = some fmt) :
    ∀ g ∈ l, p g = true → fmt.PRIORITY ≤ g.PRIORITY := by
  induction l with
  | nil => simp at hfind
  | cons a rest ih =>
      rcases List.pairwise_cons.mp hsort with ⟨ha, hrest⟩
      by_cases hpa : p a
      · rw [List.find?_cons_of_pos _ hpa] at hfind
        cases hfind
        intro g hg _
        rcases List.mem_cons.mp hg with rfl | hgr
        · exact Nat.le_refl _
        · exact ha g hgr
      · rw [List.find?_cons_of_neg _ hpa] at hfind
        intro g hg hpg
        rcases List.mem_cons.mp hg with rfl | hgr
        · exact absurd hpg (by simpa using hpa)
        · exact ih hrest hfind g hgr hpg

/-! ### Claim theorem for C3 -/

/-- C3: img_writers maps every extension to the registered format with
the smallest PRIORITY among registered formats whose EXTENSIONS contain
it; an extension maps to nothing exactly when no registered format
contains it; and because later formats are added with setdefault, the
kept format is the first one in the stable priority-sorted registration
order, which for io.py keeps the registration order of equal-priority
formats (PngFormat before ClipboardFormat). -/
theorem img_writers_smallest_priority (registry : List Fmt) (ext : String)
    (fmt : Fmt) (hlook : (img_writers registry).lookup ext = some fmt) :
    fmt ∈ registry ∧ ext ∈ fmt.EXTENSIONS
    ∧ (∀ g ∈ registry, ext ∈ g.EXTENSIONS → fmt.PRIORITY ≤ g.PRIORITY)
    ∧ (img_writers registry).lookup ext
        = (List.insertionSort prioLE registry).find?
            (fun f => f.EXTENSIONS.contains ext)
    ∧ ((img_writers registry).lookup ext = none ↔
        ∀ g ∈ registry, ext ∉ g.EXTENSIONS)
    ∧ List.insertionSort prioLE ioRegistry = ioRegistry := by
  have hperm := List.perm_insertionSort prioLE registry
  have hchar := lookup_img_writers registry ext
  have hfind : (List.insertionSort prioLE registry).find?
      (fun f => f.EXTENSIONS.contains ext) = some fmt := by
    rw [← hchar]; exact hlook
  refine ⟨?_, ?_, ?_, hchar, ?_, by decide⟩
  · exact hperm.mem_iff.mp (List.mem_of_find?_eq_some hfind)
  · have := List.find?_some hfind
    simpa using this
  · intro g hg hgext
    exact find?_min_of_pairwise _ _ fmt
      (List.sorted_insertionSort prioLE registry) hfind g
      (hperm.mem_iff.mpr hg) (by simpa using hgext)
  · rw [hchar, List.find?_eq_none]
    constructor
    · intro hall g hg hgext
      exact absurd (by simpa using hgext) (hall g (hperm.mem_iff.mpr hg))
    · intro hall f hf
      simpa using hall f (hperm.mem_iff.mp hf)

/-- Witness for C3: looking up the .pdf extension in the img_writers of
io.py yields PdfFormat, which contains .pdf and has the smallest
priority among registered formats containing it. -/
theorem img_writers_smallest_priority_witness :
    PdfFormat ∈ ioRegistry ∧ ".pdf" ∈ PdfFormat.EXTENSIONS
    ∧ (∀ g ∈ ioRegistry, ".pdf" ∈ g.EXTENSIONS → PdfFormat.PRIORITY ≤ g.PRIORITY)
    ∧ (img_writers ioRegistry).lookup ".pdf"
        = (List.insertionSort prioLE ioRegistry).find?
            (fun f => f.EXTENSIONS.contains ".pdf")
    ∧ ((img_writers ioRegistry).lookup ".pdf" = none ↔
        ∀ g ∈ ioRegistry, ".pdf" ∉ g.EXTENSIONS)
    ∧ List.insertionSort prioLE ioRegistry = ioRegistry :=
  img_writers_smallest_priority ioRegistry ".pdf" PdfFormat (by decide)

/-! ## io.py: SvgFormat.write_image (claim C6)

The builtin str.replace of Python replaces every occurrence of a
non-empty pattern, scanning left to right; it is embedded as a
structural recursion on the character list. File writes become updates
of an abstract name-to-content map. -/

/-- Embedding of str.replace for a non-empty pattern: scan left to
right, replacing each occurrence of pat by rep. -/
def pyReplace (pat rep : List Char) : List Char → List Char
  | [] => []
  | c :: rest =>
    if pat ≠ [] ∧ pat.isPrefixOf (c :: rest) then
      rep ++ pyReplace pat rep ((c :: rest).drop pat.length)
    else
      c :: pyReplace pat rep rest
termination_by s => s.length
decreasing_by
  · rename_i h
    simp only [List.length_drop, List.length_cons]
    have hp : 0 < pat.length := List.length_pos.mpr h.1
    omega
  · simp

/-- String wrapper around pyReplace. -/
def strReplace (s pat rep : String) : String := ⟨pyReplace pat.data rep.data s.data⟩

/-- Pattern replaced by SvgFormat.write_image. -/
def svgPattern : String := "<svg "

/-- Replacement text inserted by SvgFormat.write_image. -/
def svgStyleAttr : String :=
  "<svg style=\"image-rendering:optimizeSpeed;image-rendering:pixelated\" "

/-- How the SVG text is acquired: from a WebviewWidget whose svg() call
either returns text or raises a caught ValueError or IOError, or from a
non-webview scene that must go through the QPainter rendering path. -/
inductive SvgSource where
  | webview (svgCall : Except Unit String)
  | plain

/-- Write one file in the abstract file store. -/
def fsWrite (files : String → Option String) (name content : String) :
    String → Option String :=
  fun n => if n = name then some content else files n

/-- The svg variable after the acquisition phase of
SvgFormat.write_image (io.py lines 438-443): some text when the webview
call succeeded, none otherwise. -/
def obtainedSvgOpt : SvgSource → Option String
  | SvgSource.webview (Except.ok s) => some s
  | SvgSource.webview (Except.error _) => none
  | SvgSource.plain => none

/-- Embedding of SvgFormat.write_image (io.py lines 434-451):
when no webview text was obtained, the inherited write_image renders
into the file and the file is read back; the text then has every
occurrence of the svg opening tag pattern replaced and is written to
the file. The parentRendered argument is the content produced by the
inherited QPainter rendering path. -/
def svgFormat_write_image (src : SvgSource) (parentRendered : String)
    (filename : String) (files : String → Option String) :
    String → Option String :=
  match obtainedSvgOpt src with
  | some svg => fsWrite files filename (strReplace svg svgPattern svgStyleAttr)
  | none =>
      let files1 := fsWrite files filename parentRendered
      let svg := (files1 filename).getD ""
      fsWrite files1 filename (strReplace svg svgPattern svgStyleAttr)

/-- Modelled from the claim wording of C6: the exported SVG text is the
webview text when it was obtained directly, and the painter-rendered
file content otherwise. -/
def exportedSvgText : SvgSource → String → String
  | SvgSource.webview (Except.ok s), _ => s
  | SvgSource.webview (Except.error _), r => r
  | SvgSource.plain, r => r

/-- Sanity check: pyReplace replaces every occurrence, not only the
first one. -/
theorem strReplace_replaces_all_occurrences :
    strReplace "a<svg b<svg c" "<svg " "<svg X " = "a<svg X b<svg X c" := by
  simp [strReplace, pyReplace]

/-! ### Claim theorem for C6 -/

/-- C6: after SvgFormat.write_image, the file holds the exported SVG
text with every occurrence of the svg opening tag replaced by the
style-injected tag, both when the text came directly from a
WebviewWidget and when it was rendered through QPainter and re-read
from the file. -/
theorem svg_write_image_rewrites_svg_tag (src : SvgSource)
    (parentRendered filename : String) (files : String → Option String) :
    svgFormat_write_image src parentRendered filename files filename
      = some (strReplace (exportedSvgText src parentRendered) svgPattern svgStyleAttr) := by
  cases src with
  | webview svgCall =>
      cases svgCall <;> simp [svgFormat_write_image, obtainedSvgOpt, exportedSvgText, fsWrite]
  | plain => simp [svgFormat_write_image, obtainedSvgOpt, exportedSvgText, fsWrite]

/-! ## io.py: save_pyqtgraph inside ImgFormat.write_image (claim C8)

The scene object is a record whose fields beyond the scene rectangle and
the background brush are collapsed into one otherState field; the
exporter run is an opaque action that reads the scene and either
produces metadata or raises. -/

/-- Qt brush: a style flag collapsed to whether it is NoBrush, plus an
identity token. -/
structure Brush where
  isNoBrush : Bool
  color : Nat
deriving DecidableEq, Repr

/-- The QPalette.Window role constant. -/
def windowRole : Nat := 10

/-- Viewport data used by effective_background: optional background
role and the palette as a map from roles to brushes. -/
structure Viewport where
  backgroundRole : Option Nat
  palette : Nat → Brush

/-- Graphics view data read by save_pyqtgraph. -/
structure View where
  sceneRect : Nat
  backgroundBrush : Brush
  viewport : Viewport

/-- Graphics scene state: the two fields save_pyqtgraph writes, the
attached views, and all remaining state collapsed into otherState. -/
structure SceneData where
  sceneRect : Nat
  backgroundBrush : Brush
  views : List View
  otherState : Nat

/-- Embedding of effective_background (io.py lines 61-72). -/
def effective_background (scene : SceneData) (view : View) : Brush :=
  if scene.backgroundBrush.isNoBrush = false then scene.backgroundBrush
  else if view.backgroundBrush.isNoBrush = false then view.backgroundBrush
  else
    match view.viewport.backgroundRole with
    | some role => view.viewport.palette role
    | none => view.viewport.palette windowRole

/-- Embedding of save_pyqtgraph (io.py lines 147-168). The exporter is
an opaque scene-reading action exportFn that may raise; the try/finally
block is embedded by restoring the background brush and then the scene
rectangle unconditionally before the result or the exception leaves the
function. -/
def save_pyqtgraph {E M : Type} (exportFn : Option SceneData → Except E M)
    (sceneOpt : Option SceneData) : Except E M × Option SceneData :=
  match sceneOpt with
  | none => (exportFn none, none)
  | some scene =>
    match scene.views with
    | [] => (exportFn (some scene), some scene)
    | view :: _ =>
        let scenerect := scene.sceneRect
        let backgroundbrush := scene.backgroundBrush
        let s1 := { scene with sceneRect := view.sceneRect }
        let s2 := { s1 with backgroundBrush := effective_background s1 view }
        let res := exportFn (some s2)
        let s3 := { s2 with backgroundBrush := backgroundbrush }
        let s4 := { s3 with sceneRect := scenerect }
        (res, some s4)

/-! ### Claim theorem for C8 -/

/-- C8: when the scene of the exported item has at least one view,
save_pyqtgraph temporarily overwrites exactly the scene rectangle and
the background brush for the export and afterwards restores the scene
to its full original state, whatever the export returns, success or
exception; no other scene state changes. -/
theorem save_pyqtgraph_restores_scene {E M : Type}
    (exportFn : Option SceneData → Except E M) (scene : SceneData)
    (view : View) (rest : List View) (hv : scene.views = view :: rest) :
    (save_pyqtgraph exportFn (some scene)).2 = some scene
    ∧ (save_pyqtgraph exportFn (some scene)).1
        = exportFn (some { scene with
            sceneRect := view.sceneRect,
            backgroundBrush :=
              effective_background { scene with sceneRect := view.sceneRect } view }) := by
  constructor
  · simp only [save_pyqtgraph, hv]
    rw [← hv]
  · simp [save_pyqtgraph, hv]

/-- Demonstration view for the C8 witness. -/
def demoView : View :=
  { sceneRect := 7, backgroundBrush := { isNoBrush := true, color := 0 },
    viewport := { backgroundRole := none, palette := fun _ => { isNoBrush := false, color := 3 } } }

/-- Demonstration scene for the C8 witness. -/
def demoScene : SceneData :=
  { sceneRect := 1, backgroundBrush := { isNoBrush := false, color := 2 },
    views := [demoView], otherState := 42 }

/-- Demonstration exporter for the C8 witness that raises. -/
def demoExport : Option SceneData → Except Unit Nat := fun _ => Except.error ()

/-- Witness for C8 on a concrete scene with one view and an exporter
that raises: the scene still comes back in its original state. -/
theorem save_pyqtgraph_restores_scene_witness :
    (save_pyqtgraph demoExport (some demoScene)).2 = some demoScene
    ∧ (save_pyqtgraph demoExport (some demoScene)).1
        = demoExport (some { demoScene with
            sceneRect := demoView.sceneRect,
            backgroundBrush :=
              effective_background { demoScene with sceneRect := demoView.sceneRect } demoView }) :=
  save_pyqtgraph_restores_scene demoExport demoScene demoView [] rfl

/-! ## signals.py: WidgetSignalsMixin.get_signals (claim C4)

Input and Output descriptors draw a fresh _seq_id from one global
increasing counter at definition time, so textual definition order is
exactly increasing _seq_id order and all _seq_id values are distinct.
A class namespace is an insertion-ordered dictionary whose entries may
or may not be signals; getsignals walks the method resolution order
reversed, so base classes come first. -/

/-- Signal descriptor datum relevant to ordering. -/
structure Sig where
  seq_id : Nat
deriving DecidableEq, Repr

/-- Comparison used as the key in sorted(signals, key=lambda s: s._seq_id). -/
def seqLE (a b : Sig) : Prop := a.seq_id ≤ b.seq_id

instance : DecidableRel seqLE :=
  fun a b => inferInstanceAs (Decidable (a.seq_id ≤ b.seq_id))

instance : IsTotal Sig seqLE := ⟨fun a b => Nat.le_total a.seq_id b.seq_id⟩

instance : IsTrans Sig seqLE := ⟨fun _ _ _ hab hbc => Nat.le_trans hab hbc⟩

/-- One entry of a class namespace dictionary: a signal or anything else. -/
inductive DictEntry where
  | signal (s : Sig)
  | plain
deriving DecidableEq, Repr

/-- Embedding of getsignals (signals.py lines 122-128): walk the method
resolution order reversed, collecting the namespace entries that are
signals, in dictionary insertion order. -/
def getsignals (mro : List (List (String × DictEntry))) : List (String × Sig) :=
  (mro.reverse.map (fun d => d.filterMap (fun kv =>
    match kv.2 with
    | DictEntry.signal s => some (kv.1, s)
    | DictEntry.plain => none))).flatten

/-- Embedding of WidgetSignalsMixin.get_signals (signals.py lines
542-563): a non-empty old-style list in the own class dictionary is
returned unchanged unless ignored; otherwise the new-style signals are
collected and sorted by _seq_id with the stable builtin sorted. Python
truthiness makes a missing attribute and an empty list equivalent,
which the getD default captures. -/
def get_signals (oldStyle : Option (List Sig)) (ignoreOldStyle : Bool)
    (signalsMro : List (List (String × DictEntry))) : List Sig :=
  if oldStyle.getD [] ≠ [] ∧ ignoreOldStyle = false then oldStyle.getD []
  else List.insertionSort seqLE ((getsignals signalsMro).map Prod.snd)

/-! ### Claim theorem for C4 -/

/-- C4: for a class with new-style signals (no usable old-style list),
get_signals returns the collected descriptors sorted by the _seq_id
counter: the result is a permutation of the collected signals ordered
non-strictly by _seq_id, and strictly whenever the counter values are
distinct, which the global counter guarantees, so the result is the
textual definition order with base classes first; and when the own
class dictionary holds a non-empty old-style list and ignore_old_style
is false, that list is returned unchanged. -/
theorem get_signals_seq_id_order (oldStyle : Option (List Sig)) (ignore : Bool)
    (mro : List (List (String × DictEntry))) :
    (∀ l, oldStyle = some l → l ≠ [] → ignore = false →
        get_signals oldStyle ignore mro = l)
    ∧ ((oldStyle.getD [] = [] ∨ ignore = true) →
        get_signals oldStyle ignore mro
            = List.insertionSort seqLE ((getsignals mro).map Prod.snd)
        ∧ (get_signals oldStyle ignore mro).Perm ((getsignals mro).map Prod.snd)
        ∧ (get_signals oldStyle ignore mro).Pairwise seqLE
        ∧ (((getsignals mro).map (fun p => p.2.seq_id)).Nodup →
            (get_signals oldStyle ignore mro).Pairwise
              (fun a b => a.seq_id < b.seq_id))) := by
  constructor
  · intro l hsome hne hig
    subst hsome
    simp [get_signals, hne, hig]
  · intro hnew
    have hbranch : get_signals oldStyle ignore mro
        = List.insertionSort seqLE ((getsignals mro).map Prod.snd) := by
      rcases hnew with h | h
      · simp [get_signals, h]
      · subst h
        simp [get_signals]
    refine ⟨hbranch, ?_, ?_, ?_⟩
    · rw [hbranch]; exact List.perm_insertionSort seqLE _
    · rw [hbranch]; exact List.sorted_insertionSort seqLE _
    · intro hnd
      rw [hbranch]
      have hperm := List.perm_insertionSort seqLE ((getsignals mro).map Prod.snd)
      have hnd2 : ((List.insertionSort seqLE ((getsignals mro).map Prod.snd)).map
          Sig.seq_id).Nodup := by
        refine (hperm.map Sig.seq_id).nodup_iff.mpr ?_
        have : ((getsignals mro).map Prod.snd).map Sig.seq_id
            = (getsignals mro).map (fun p => p.2.seq_id) := by
          rw [List.map_map]; rfl
        rw [this]; exact hnd
      have hne : (List.insertionSort seqLE ((getsignals mro).map Prod.snd)).Pairwise
          (fun a b => a.seq_id ≠ b.seq_id) := List.pairwise_map.mp hnd2
      have hle := List.sorted_insertionSort seqLE ((getsignals mro).map Prod.snd)
      exact (hle.and hne).imp (fun h => Nat.lt_of_le_of_ne h.1 h.2)

/-- Example class layout for the C4 witness: a mixin hierarchy in which
the reversed method resolution order visits the later-defined class
first, so sorting by _seq_id is what restores definition order. -/
def demoMro : List (List (String × DictEntry)) :=
  [[], [("b1", DictEntry.signal ⟨2⟩), ("x", DictEntry.plain)],
   [("a1", DictEntry.signal ⟨1⟩)]]

/-- Witness for C4 on demoMro with no old-style list: the result is the
two signals in increasing counter order. -/
theorem get_signals_seq_id_order_witness :
    get_signals none false demoMro
        = List.insertionSort seqLE ((getsignals demoMro).map Prod.snd)
    ∧ (get_signals none false demoMro).Perm ((getsignals demoMro).map Prod.snd)
    ∧ (get_signals none false demoMro).Pairwise seqLE
    ∧ (get_signals none false demoMro).Pairwise (fun a b => a.seq_id < b.seq_id) := by
  have h := (get_signals_seq_id_order none false demoMro).2 (Or.inl rfl)
  exact ⟨h.1, h.2.1, h.2.2.1, h.2.2.2 (by decide)⟩

/-! ## signals.py: set_multi_input_helper (claims C1 and C9)

The per-widget, per-input state is the insertion-ordered sequence of
(key, value) pairs kept in the widget input state dictionary. Values
are the closing sentinel Closed, None, or a payload. The function
updates the stored sequence and dispatches exactly one of the insert,
update or remove handlers, or none at all when filtering swallows the
notification; the dispatched call is returned alongside the new
sequence. The impossible arms guarded by assert statements in the
source are represented by an assertFail marker. -/

/-- Value sent on a MultiInput: the Closed sentinel, None, or data. -/
inductive PyVal where
  | closed
  | noneV
  | val (n : Nat)
deriving DecidableEq, Repr

/-- Key-value pair list as stored per input name. -/
abbrev KV := Nat × PyVal

/-- The filter used by filter_none inputs: obj is None. -/
def filterF : PyVal → Bool
  | PyVal.noneV => true
  | _ => false

/-- Embedding of the key_to_pos dictionary lookup: position of the key
in the sequence, taking the last occurrence as a Python dict
comprehension would on duplicate keys. -/
def keyToPos : List KV → Nat → Option Nat
  | [], _ => none
  | (k, _) :: rest, key =>
      match keyToPos rest key with
      | some j => some (j + 1)
      | none => if k = key then some 0 else none

/-- Embedding of list.insert of Python: insert before position i,
appending when i reaches past the end. -/
def pyInsert (i : Nat) (x : α) : List α → List α
  | [] => [x]
  | a :: l =>
      match i with
      | 0 => x :: a :: l
      | j + 1 => a :: pyInsert j x l

/-- Embedding of the inner local_index function (signals.py lines
784-796): position of the key counting only entries the filter keeps
when useFilter is set, every entry otherwise. -/
def local_index (key : Nat) (inputs : List KV) (useFilter : Bool) : Option Nat :=
  match inputs with
  | [] => none
  | (k, o) :: rest =>
      if key = k then some 0
      else (local_index key rest useFilter).map
             (fun i => i + (if useFilter && filterF o then 0 else 1))

/-- The handler dispatch performed at the end of set_multi_input_helper:
which of the registered insert, update and remove handlers is invoked
and with which arguments. -/
inductive HandlerCall where
  | insertCall (index : Nat) (obj : PyVal)
  | updateCall (index : Nat) (obj : PyVal)
  | removeCall (index : Nat)
  | assertFail
deriving DecidableEq, Repr

/-- Embedding of set_multi_input_helper (signals.py lines 739-844) for
one widget and one named MultiInput, whose closing sentinel is always
Closed. Takes the stored sequence, the call arguments and the
filter_none flag of the input; returns the new stored sequence together
with the dispatched handler call, none when an early return skips the
dispatch. -/
def set_multi_input_helper (filter_none : Bool) (inputs : List KV)
    (key : Nat) (obj : PyVal) (index0 : Int) : List KV × Option HandlerCall :=
  match keyToPos inputs key with
  | none =>
      let index : Nat :=
        if 0 ≤ index0 ∧ index0 < (inputs.length : Int)
        then index0.toNat else inputs.length
      let inputs_updated := pyInsert index (key, obj) inputs
      if filter_none then
        if filterF obj then
          (inputs_updated, none)
        else
          let index2 := ((inputs.take index).filter (fun p => !filterF p.2)).length
          (inputs_updated, some (HandlerCall.insertCall index2 obj))
      else
        (inputs_updated, some (HandlerCall.insertCall index obj))
  | some pos =>
      match inputs.get? pos with
      | none => (inputs, some HandlerCall.assertFail)
      | some signal_old =>
          if obj = PyVal.closed then
            let inputs_updated := inputs.eraseIdx pos
            if filter_none then
              if filterF signal_old.2 then
                (inputs_updated, none)
              else
                match local_index key inputs true with
                | some li => (inputs_updated, some (HandlerCall.removeCall li))
                | none => (inputs_updated, some HandlerCall.assertFail)
            else
              (inputs_updated, some (HandlerCall.removeCall pos))
          else
            let inputs_updated := inputs.set pos (key, obj)
            if filter_none then
              if filterF obj then
                if filterF signal_old.2 then
                  (inputs_updated, none)
                else
                  match local_index key inputs true with
                  | some li => (inputs_updated, some (HandlerCall.removeCall li))
                  | none => (inputs_updated, some HandlerCall.assertFail)
              else
                match local_index key inputs true with
                | some li =>
                    if filterF signal_old.2 then
                      (inputs_updated, some (HandlerCall.insertCall li obj))
                    else
                      (inputs_updated, some (HandlerCall.updateCall li obj))
                | none => (inputs_updated, some HandlerCall.assertFail)
            else
              (inputs_updated, some (HandlerCall.updateCall pos obj))

/-! ### Positional lemmas for the multi-input helper -/

theorem keyToPos_eq_none (inputs : List KV) (key : Nat)
    (h : key ∉ inputs.map Prod.fst) : keyToPos inputs key = none := by
  induction inputs with
  | nil => rfl
  | cons p rest ih =>
      obtain ⟨k, v⟩ := p
      simp only [List.map_cons, List.mem_cons, not_or] at h
      simp only [keyToPos, ih h.2]
      rw [if_neg (fun hc => h.1 hc.symm)]

theorem keyToPos_append (pre post : List KV) (key : Nat) (old : PyVal)
    (hpre : key ∉ pre.map Prod.fst) (hpost : key ∉ post.map Prod.fst) :
    keyToPos (pre ++ (key, old) :: post) key = some pre.length := by
  induction pre with
  | nil =>
      simp only [List.nil_append, keyToPos, keyToPos_eq_none post key hpost, if_pos rfl]
      rfl
  | cons p pre' ih =>
      obtain ⟨k, v⟩ := p
      simp only [List.map_cons, List.mem_cons, not_or] at hpre
      simp only [List.cons_append, keyToPos, List.append_eq, ih hpre.2, List.length_cons]

theorem get?_append_len (pre post : List KV) (x : KV) :
    (pre ++ x :: post).get? pre.length = some x := by
  induction pre with
  | nil => rfl
  | cons p pre' ih => simpa using ih

theorem eraseIdx_append_len (pre post : List KV) (x : KV) :
    (pre ++ x :: post).eraseIdx pre.length = pre ++ post := by
  induction pre with
  | nil => rfl
  | cons p pre' ih => simp [List.eraseIdx, ih]

theorem set_append_len (pre post : List KV) (x y : KV) :
    (pre ++ x :: post).set pre.length y = pre ++ y :: post := by
  induction pre with
  | nil => rfl
  | cons p pre' ih => simp [List.set, ih]

theorem local_index_append (pre post : List KV) (key : Nat) (old : PyVal)
    (hpre : key ∉ pre.map Prod.fst) :
    local_index key (pre ++ (key, old) :: post) true
      = some ((pre.filter (fun p => !filterF p.2)).length) := by
  induction pre with
  | nil => simp [local_index]
  | cons p pre' ih =>
      obtain ⟨k, o⟩ := p
      simp only [List.map_cons, List.mem_cons, not_or] at hpre
      simp only [List.cons_append, local_index, List.append_eq]
      rw [if_neg hpre.1, ih hpre.2]
      cases hf : filterF o <;> simp [List.filter_cons, hf]

theorem pyInsert_map_fst (i : Nat) (x : KV) (l : List KV) :
    (pyInsert i x l).map Prod.fst = pyInsert i x.1 (l.map Prod.fst) := by
  induction l generalizing i with
  | nil => cases i <;> rfl
  | cons a l ih =>
      cases i with
      | zero => rfl
      | succ j => simp [pyInsert, ih]

theorem mem_pyInsert {α : Type} (i : Nat) (x b : α) (l : List α) :
    b ∈ pyInsert i x l ↔ b = x ∨ b ∈ l := by
  induction l generalizing i with
  | nil => simp [pyInsert]
  | cons a l ih =>
      cases i with
      | zero => simp [pyInsert]
      | succ j =>
          simp only [pyInsert, List.mem_cons, ih]
          tauto

theorem nodup_pyInsert {α : Type} (i : Nat) (x : α) (l : List α)
    (hx : x ∉ l) (h : l.Nodup) : (pyInsert i x l).Nodup := by
  induction l generalizing i with
  | nil => simp [pyInsert]
  | cons a l ih =>
      rcases List.nodup_cons.mp h with ⟨ha, hl⟩
      have hx' : x ∉ l := fun hm => hx (List.mem_cons_of_mem a hm)
      have hxa : x ≠ a := fun he => hx (he ▸ List.mem_cons_self a l)
      cases i with
      | zero =>
          simp only [pyInsert, List.nodup_cons]
          exact ⟨hx, ha, hl⟩
      | succ j =>
          simp only [pyInsert, List.nodup_cons]
          refine ⟨fun hm => ?_, ih j hx' hl⟩
          rcases (mem_pyInsert j x a l).mp hm with he | hm2
          · exact hxa he.symm
          · exact ha hm2

theorem filter_pyInsert {α : Type} (p : α → Bool) (i : Nat) (x : α) (l : List α)
    (hx : p x = false) : (pyInsert i x l).filter p = l.filter p := by
  induction l generalizing i with
  | nil => simp [pyInsert, hx]
  | cons a l ih =>
      cases i with
      | zero => simp [pyInsert, List.filter_cons, hx]
      | succ j => simp [pyInsert, List.filter_cons, ih]

theorem nodup_split_facts (pre post : List KV) (key : Nat) (old : PyVal)
    (hnd : ((pre ++ (key, old) :: post).map Prod.fst).Nodup) :
    key ∉ pre.map Prod.fst ∧ key ∉ post.map Prod.fst := by
  rw [List.map_append, List.map_cons] at hnd
  constructor
  · intro hk
    exact (List.disjoint_of_nodup_append hnd) hk (by simp)
  · have h2 := (List.nodup_append.mp hnd).2.1
    exact (List.nodup_cons.mp h2).1

/-! ### Evaluation of set_multi_input_helper by case -/

theorem helper_fst_new (fn : Bool) (inputs : List KV) (key : Nat) (obj : PyVal)
    (index0 : Int) (h : key ∉ inputs.map Prod.fst) :
    (set_multi_input_helper fn inputs key obj index0).1
      = pyInsert (if 0 ≤ index0 ∧ index0 < (inputs.length : Int)
                  then index0.toNat else inputs.length) (key, obj) inputs := by
  unfold set_multi_input_helper
  rw [keyToPos_eq_none inputs key h]
  cases fn <;> by_cases hf : filterF obj <;> simp [hf]

theorem helper_snd_new_none (inputs : List KV) (key : Nat) (obj : PyVal)
    (index0 : Int) (h : key ∉ inputs.map Prod.fst) (hobj : filterF obj = true) :
    (set_multi_input_helper true inputs key obj index0).2 = none := by
  unfold set_multi_input_helper
  rw [keyToPos_eq_none inputs key h]
  simp [hobj]

theorem helper_eq_update (fn : Bool) (pre post : List KV) (key : Nat)
    (old obj : PyVal) (index0 : Int)
    (hpre : key ∉ pre.map Prod.fst) (hpost : key ∉ post.map Prod.fst)
    (hobj : obj ≠ PyVal.closed) :
    set_multi_input_helper fn (pre ++ (key, old) :: post) key obj index0
      = (pre ++ (key, obj) :: post,
         if fn then
           (if filterF obj then
              (if filterF old then none
               else some (HandlerCall.removeCall
                 ((pre.filter (fun p => !filterF p.2)).length)))
            else
              (if filterF old then
                 some (HandlerCall.insertCall
                   ((pre.filter (fun p => !filterF p.2)).length) obj)
               else
                 some (HandlerCall.updateCall
                   ((pre.filter (fun p => !filterF p.2)).length) obj)))
         else some (HandlerCall.updateCall pre.length obj)) := by
  unfold set_multi_input_helper
  rw [keyToPos_append pre post key old hpre hpost]
  simp only [get?_append_len, set_append_len,
    local_index_append pre post key old hpre]
  rw [if_neg hobj]
  cases fn <;> by_cases hf : filterF obj <;> by_cases ho : filterF old <;>
    simp [hf, ho]

theorem helper_eq_remove (fn : Bool) (pre post : List KV) (key : Nat)
    (old : PyVal) (index0 : Int)
    (hpre : key ∉ pre.map Prod.fst) (hpost : key ∉ post.map Prod.fst) :
    set_multi_input_helper fn (pre ++ (key, old) :: post) key PyVal.closed index0
      = (pre ++ post,
         if fn then
           (if filterF old then none
            else some (HandlerCall.removeCall
              ((pre.filter (fun p => !filterF p.2)).length)))
         else some (HandlerCall.removeCall pre.length)) := by
  unfold set_multi_input_helper
  rw [keyToPos_append pre post key old hpre hpost]
  simp only [get?_append_len, eraseIdx_append_len,
    local_index_append pre post key old hpre]
  cases fn <;> by_cases ho : filterF old <;> simp [ho]

/-! ### Claim theorems for C1 and C9 -/

/-- C1 (amended): for every widget and MultiInput name,
set_multi_input_helper keeps an association sequence in which each key
occurs at most once and the relative order of the other keys is
preserved by every call; a call with a key not yet present inserts the
pair at the given index, appending at the end when the index is outside
[0, len), even when the value is the closing sentinel; a call with an
already-present key and a non-sentinel value replaces the stored value
in place without changing the position of the key; a call with an
already-present key whose value is the closing sentinel removes the
pair of that key. -/
theorem set_multi_input_assoc_invariant (fn : Bool) (inputs : List KV)
    (key : Nat) (obj : PyVal) (index0 : Int)
    (hnd : (inputs.map Prod.fst).Nodup) :
    ((set_multi_input_helper fn inputs key obj index0).1.map Prod.fst).Nodup
    ∧ ((set_multi_input_helper fn inputs key obj index0).1.filter
          (fun p => !(p.1 == key))
        = inputs.filter (fun p => !(p.1 == key)))
    ∧ (key ∉ inputs.map Prod.fst →
        (set_multi_input_helper fn inputs key obj index0).1
          = pyInsert (if 0 ≤ index0 ∧ index0 < (inputs.length : Int)
              then index0.toNat else inputs.length) (key, obj) inputs)
    ∧ (∀ pre old post, inputs = pre ++ (key, old) :: post → obj ≠ PyVal.closed →
        (set_multi_input_helper fn inputs key obj index0).1
          = pre ++ (key, obj) :: post)
    ∧ (∀ pre old post, inputs = pre ++ (key, old) :: post → obj = PyVal.closed →
        (set_multi_input_helper fn inputs key obj index0).1 = pre ++ post) := by
  by_cases hkey : key ∈ inputs.map Prod.fst
  · refine ⟨?_, ?_, fun hk => absurd hkey hk, ?_, ?_⟩
    · obtain ⟨⟨k1, v⟩, hp, hfst⟩ := List.mem_map.mp hkey
      simp only at hfst
      subst hfst
      obtain ⟨pre, post, heq⟩ := List.append_of_mem hp
      subst heq
      obtain ⟨hpre, hpost⟩ := nodup_split_facts pre post k1 v hnd
      by_cases hobj : obj = PyVal.closed
      · subst hobj
        rw [helper_eq_remove fn pre post k1 v index0 hpre hpost]
        have hsub : ((pre ++ post).map Prod.fst).Sublist
            ((pre ++ (k1, v) :: post).map Prod.fst) :=
          List.Sublist.map Prod.fst
            (List.Sublist.append_left (List.sublist_cons_self (k1, v) post) pre)
        exact List.Nodup.sublist hsub hnd
      · rw [helper_eq_update fn pre post k1 v obj index0 hpre hpost hobj]
        simp only [List.map_append, List.map_cons] at hnd ⊢
        exact hnd
    · obtain ⟨⟨k1, v⟩, hp, hfst⟩ := List.mem_map.mp hkey
      simp only at hfst
      subst hfst
      obtain ⟨pre, post, heq⟩ := List.append_of_mem hp
      subst heq
      obtain ⟨hpre, hpost⟩ := nodup_split_facts pre post k1 v hnd
      by_cases hobj : obj = PyVal.closed
      · subst hobj
        rw [helper_eq_remove fn pre post k1 v index0 hpre hpost]
        simp [List.filter_append, List.filter_cons]
      · rw [helper_eq_update fn pre post k1 v obj index0 hpre hpost hobj]
        simp [List.filter_append, List.filter_cons]
    · intro pre old post heq hobj
      subst heq
      obtain ⟨hpre, hpost⟩ := nodup_split_facts pre post key old hnd
      rw [helper_eq_update fn pre post key old obj index0 hpre hpost hobj]
    · intro pre old post heq hobj
      subst heq
      subst hobj
      obtain ⟨hpre, hpost⟩ := nodup_split_facts pre post key old hnd
      rw [helper_eq_remove fn pre post key old index0 hpre hpost]
  · have hst := helper_fst_new fn inputs key obj index0 hkey
    refine ⟨?_, ?_, fun _ => hst, ?_, ?_⟩
    · rw [hst, pyInsert_map_fst]
      exact nodup_pyInsert _ key _ hkey hnd
    · rw [hst]
      apply filter_pyInsert
      simp
    · intro pre old post heq _
      exact absurd (by rw [heq]; simp) hkey
    · intro pre old post heq _
      exact absurd (by rw [heq]; simp) hkey

/-- C1 counterexample: the frozen claim says a call whose value is the
closing sentinel removes the pair of that key, but on a key that is not
yet present the code inserts the pair (key, Closed), so the key is
present afterwards instead of absent. -/
theorem set_multi_input_sentinel_counterexample :
    (set_multi_input_helper false [] 0 PyVal.closed (-1)).1 = [(0, PyVal.closed)]
    ∧ 0 ∈ ((set_multi_input_helper false [] 0 PyVal.closed (-1)).1.map Prod.fst) := by
  constructor <;> decide

/-- Witness for C1 at a concrete update call: sending a new value for
the already-present key 1 replaces its value in place. -/
theorem set_multi_input_assoc_invariant_witness :
    (((set_multi_input_helper false [(1, PyVal.val 5), (2, PyVal.val 6)] 1
        (PyVal.val 9) (-1)).1.map Prod.fst).Nodup)
    ∧ (set_multi_input_helper false [(1, PyVal.val 5), (2, PyVal.val 6)] 1
        (PyVal.val 9) (-1)).1 = [(1, PyVal.val 9), (2, PyVal.val 6)] := by
  have h := set_multi_input_assoc_invariant false
    [(1, PyVal.val 5), (2, PyVal.val 6)] 1 (PyVal.val 9) (-1) (by decide)
  refine ⟨h.1, ?_⟩
  have h4 := h.2.2.2.1 [] (PyVal.val 5) [(2, PyVal.val 6)] rfl (by decide)
  simpa using h4

/-- C9: for a MultiInput with filter_none, a None value is normalised to
a removal: when the previous value of the key was non-None the remove
handler runs at the position of the key counted among non-None entries,
and when the key is new or was already None no handler runs at all; a
later non-None value for a key stored as None goes to the insert
handler at the position of the key among non-None entries; and the
stored sequence, None entries included, is exactly the one kept without
filtering. -/
theorem set_multi_input_filter_none_dispatch (inputs : List KV) (key : Nat)
    (obj : PyVal) (index0 : Int) (hnd : (inputs.map Prod.fst).Nodup) :
    (set_multi_input_helper true inputs key obj index0).1
        = (set_multi_input_helper false inputs key obj index0).1
    ∧ (key ∉ inputs.map Prod.fst → obj = PyVal.noneV →
        (set_multi_input_helper true inputs key obj index0).2 = none)
    ∧ (∀ pre post, inputs = pre ++ (key, PyVal.noneV) :: post →
        obj = PyVal.noneV →
        (set_multi_input_helper true inputs key obj index0).2 = none)
    ∧ (∀ pre old post, inputs = pre ++ (key, old) :: post →
        old ≠ PyVal.noneV → obj = PyVal.noneV →
        (set_multi_input_helper true inputs key obj index0).2
          = some (HandlerCall.removeCall
              ((pre.filter (fun p => !filterF p.2)).length)))
    ∧ (∀ pre post n, inputs = pre ++ (key, PyVal.noneV) :: post →
        obj = PyVal.val n →
        (set_multi_input_helper true inputs key obj index0).2
          = some (HandlerCall.insertCall
              ((pre.filter (fun p => !filterF p.2)).length) obj)) := by
  refine ⟨?_, ?_, ?_, ?_, ?_⟩
  · by_cases hkey : key ∈ inputs.map Prod.fst
    · obtain ⟨⟨k1, v⟩, hp, hfst⟩ := List.mem_map.mp hkey
      simp only at hfst
      subst hfst
      obtain ⟨pre, post, heq⟩ := List.append_of_mem hp
      subst heq
      obtain ⟨hpre, hpost⟩ := nodup_split_facts pre post k1 v hnd
      by_cases hobj : obj = PyVal.closed
      · subst hobj
        rw [helper_eq_remove true pre post k1 v index0 hpre hpost,
          helper_eq_remove false pre post k1 v index0 hpre hpost]
      · rw [helper_eq_update true pre post k1 v obj index0 hpre hpost hobj,
          helper_eq_update false pre post k1 v obj index0 hpre hpost hobj]
    · rw [helper_fst_new true inputs key obj index0 hkey,
        helper_fst_new false inputs key obj index0 hkey]
  · intro hk hobj
    exact helper_snd_new_none inputs key obj index0 hk (by rw [hobj]; rfl)
  · intro pre post heq hobj
    subst heq
    subst hobj
    obtain ⟨hpre, hpost⟩ := nodup_split_facts pre post key PyVal.noneV hnd
    rw [helper_eq_update true pre post key PyVal.noneV PyVal.noneV index0
      hpre hpost (by decide)]
    simp [filterF]
  · intro pre old post heq hold hobj
    subst heq
    subst hobj
    obtain ⟨hpre, hpost⟩ := nodup_split_facts pre post key old hnd
    have ho : filterF old = false := by
      cases old
      · rfl
      · exact absurd rfl hold
      · rfl
    rw [helper_eq_update true pre post key old PyVal.noneV index0
      hpre hpost (by decide)]
    simp [filterF, ho]
  · intro pre post n heq hobj
    subst heq
    subst hobj
    obtain ⟨hpre, hpost⟩ := nodup_split_facts pre post key PyVal.noneV hnd
    rw [helper_eq_update true pre post key PyVal.noneV (PyVal.val n) index0
      hpre hpost (fun hc => PyVal.noConfusion hc)]
    simp [filterF]

/-- Witness for C9: in the stored sequence [(1, 5), (2, None)], sending
the value 7 for key 2 dispatches the insert handler at position 1, the
position of key 2 among non-None entries. -/
theorem set_multi_input_filter_none_dispatch_witness :
    (set_multi_input_helper true [(1, PyVal.val 5), (2, PyVal.noneV)] 2
        (PyVal.val 7) (-1)).2
      = some (HandlerCall.insertCall 1 (PyVal.val 7)) := by
  have h := set_multi_input_filter_none_dispatch
    [(1, PyVal.val 5), (2, PyVal.noneV)] 2 (PyVal.val 7) (-1) (by decide)
  have h5 := h.2.2.2.2 [(1, PyVal.val 5)] [] 7 rfl rfl
  simpa using h5

end OrangeWidget
